import Mathlib

/- Batteries seals the rational-number operations; restore default
reducibility so that concrete runs of the embedded kernels can be checked
by kernel evaluation. -/
unseal Rat.add Rat.mul Rat.sub Rat.inv Rat.ofScientific

/-!
Shallow embedding of the 3D non-max-suppression / crop-and-resize custom
operators of this repository (non_max_suppression_3d_kernels.cc: the IOU
helper, DoNonMaxSuppressionOp, BatchedNonMaxSuppressionOp, the registered
NonMaxSuppression3D kernel, and the CropAndResize3D kernel).

Modelling conventions:
* float scores / coordinates are modelled as exact rationals;
* std::exp is an external function and is passed in as an abstract
  argument of type rational-to-rational wherever the engine needs it;
* the C++ priority queue is modelled as a list together with a
  pop-the-maximum operation for the kernel's comparator (the comparator is
  a strict total order on all states the engine can reach, so the heap's
  pop order is exactly pop-maximum);
* similarity-function invocations are additionally logged in a ghost
  trace field that the computation never reads, so that the comparison
  count of the engine can be stated;
* tensors are flat lists with the row-major offset arithmetic of the
  kernels; an output buffer fresh from allocate_output is a list of
  optional values, all initially unassigned.
-/

/-- A 3D box: six scalars in buffer order (y1, x1, z1, y2, x2, z2),
matching boxes(i, 0), ..., boxes(i, 5) in the kernels. -/
structure Box3 where
  y1 : ℚ
  x1 : ℚ
  z1 : ℚ
  y2 : ℚ
  x2 : ℚ
  z2 : ℚ
deriving DecidableEq

instance : Inhabited Box3 := ⟨⟨0, 0, 0, 0, 0, 0⟩⟩

/-- Normalized volume of one box: the product of the three axis extents
after per-axis min/max normalization.  This is exactly the area_i
computation of the IOU helper (non_max_suppression_3d_kernels.cc,
lines 93 to 106). -/
def boxVol (b : Box3) : ℚ :=
  (max b.y1 b.y2 - min b.y1 b.y2) * (max b.x1 b.x2 - min b.x1 b.x2) *
    (max b.z1 b.z2 - min b.z1 b.z2)

/-- IOU(boxes, i, j) from non_max_suppression_3d_kernels.cc, lines 91-121:
per-axis corner normalization, zero similarity when either volume is
non-positive, otherwise clamped intersection volume over union volume. -/
def IOU (boxes : List Box3) (i j : ℕ) : ℚ :=
  let bi := boxes.getD i default
  let bj := boxes.getD j default
  let areaI := boxVol bi
  let areaJ := boxVol bj
  if areaI ≤ 0 ∨ areaJ ≤ 0 then 0
  else
    let iYmin := max (min bi.y1 bi.y2) (min bj.y1 bj.y2)
    let iXmin := max (min bi.x1 bi.x2) (min bj.x1 bj.x2)
    let iZmin := max (min bi.z1 bi.z2) (min bj.z1 bj.z2)
    let iYmax := min (max bi.y1 bi.y2) (max bj.y1 bj.y2)
    let iXmax := min (max bi.x1 bi.x2) (max bj.x1 bj.x2)
    let iZmax := min (max bi.z1 bi.z2) (max bj.z1 bj.z2)
    let interArea :=
      max (iYmax - iYmin) 0 * max (iXmax - iXmin) 0 * max (iZmax - iZmin) 0
    interArea / (areaI + areaJ - interArea)

/-- A candidate of the single-class suppression engine: box index, current
score, suppress_begin_index (the Candidate struct, lines 161-165). -/
structure Cand where
  box : ℕ
  score : ℚ
  sbi : ℕ
deriving DecidableEq

/-- The priority-queue comparator cmp of lines 167-170: candidate a is
strictly smaller (lower priority) than candidate b when the scores are
equal and a has the larger box index, or when a has the smaller score. -/
def candLt (a b : Cand) : Prop :=
  (a.score = b.score ∧ b.box < a.box) ∨ a.score < b.score

instance (a b : Cand) : Decidable (candLt a b) := by
  unfold candLt; exact inferInstance

/-- Pop a maximum element (in the candLt order) from the queue.  On all
states the engine reaches, no two queue entries share both score and box
index, so candLt is a strict total order there and this is exactly the
pop of the C++ max-priority-queue. -/
def popMax : List Cand → Option (Cand × List Cand)
  | [] => none
  | c :: rest =>
    match popMax rest with
    | none => some (c, [])
    | some (m, rest') =>
      if candLt c m then some (m, c :: rest') else some (c, rest)

/-- The suppress_weight closure of lines 184-188: Gaussian factor
expFn (scale * sim * sim) when sim is at most the similarity threshold,
otherwise 0.  expFn stands for std::exp. -/
def suppressWeight (expFn : ℚ → ℚ) (t scale : ℚ) (sim : ℚ) : ℚ :=
  if sim ≤ t then expFn (scale * sim * sim) else 0

/-- Slot indices visited by the inner comparison loop: from len - 1
downward to sbi (lines 209-210). -/
def revRange (sbi len : ℕ) : List ℕ :=
  (List.range' sbi (len - sbi)).reverse

/-- The inner comparison loop of lines 209-223 over the given descending
slot-index list.  For each visited slot j it evaluates the similarity of
the candidate box b with selected[j], multiplies the running score by the
suppression weight, then breaks with hard suppression when the similarity
reaches the threshold t, or breaks (without hard suppression) once the
score has dropped to the score threshold s or below.  Returns the final
score, the hard-suppression flag, and the ghost list of (candidate box,
slot) pairs on which the similarity function was evaluated, in visit
order. -/
def innerLoop (simFn : ℕ → ℕ → ℚ) (w : ℚ → ℚ) (t s : ℚ) (selected : List ℕ)
    (b : ℕ) : List ℕ → ℚ → ℚ × Bool × List (ℕ × ℕ)
  | [], score => (score, false, [])
  | j :: rest, score =>
    let sim := simFn b (selected.getD j 0)
    let score' := score * w sim
    if t ≤ sim then (score', true, [(b, j)])
    else if score' ≤ s then (score', false, [(b, j)])
    else
      let r := innerLoop simFn w t s selected b rest score'
      (r.1, r.2.1, (b, j) :: r.2.2)

/-- State of the selection loop of DoNonMaxSuppressionOp: the candidate
priority queue, the selected box indices, their recorded scores, and the
ghost trace of similarity evaluations. -/
structure NmsState where
  queue : List Cand
  selected : List ℕ
  selScores : List ℚ
  trace : List (ℕ × ℕ)
deriving DecidableEq

/-- One iteration of the while loop of lines 195-248.  Returns none when
the loop guard fails (enough boxes selected, or empty queue).  Otherwise:
pop the highest-priority candidate, run the inner comparison loop from
slot selected.length - 1 down to its suppress_begin_index, set its
suppress_begin_index to the current selected count (line 234, before any
push), and then - faithfully to the source, which has no continue
statement between its two ifs (lines 236-247) - both select it when its
score is unchanged and re-insert it into the queue when its score is
still above the score threshold. -/
def nmsStep (simFn : ℕ → ℕ → ℚ) (w : ℚ → ℚ) (t s : ℚ) (K : ℕ)
    (st : NmsState) : Option NmsState :=
  if st.selected.length < K then
    match popMax st.queue with
    | none => none
    | some (c, rest) =>
      let original := c.score
      let r := innerLoop simFn w t s st.selected c.box
        (revRange c.sbi st.selected.length) original
      let score' := r.1
      let hard := r.2.1
      let c' : Cand := ⟨c.box, score', st.selected.length⟩
      let st1 : NmsState :=
        { st with queue := rest, trace := st.trace ++ r.2.2 }
      if hard then some st1
      else
        let st2 : NmsState :=
          if score' = original then
            { st1 with selected := st1.selected ++ [c.box],
                       selScores := st1.selScores ++ [score'] }
          else st1
        if s < score' then some { st2 with queue := c' :: st2.queue }
        else some st2
  else none

/-- The while loop of lines 195-248, driven by explicit fuel.  The C++
loop always terminates; every property proved below holds for every fuel
value, and the concrete evaluations use fuel at which the loop guard has
already failed. -/
def nmsLoop (simFn : ℕ → ℕ → ℚ) (w : ℚ → ℚ) (t s : ℚ) (K : ℕ) :
    ℕ → NmsState → NmsState
  | 0, st => st
  | fuel + 1, st =>
    match nmsStep simFn w t s K st with
    | none => st
    | some st' => nmsLoop simFn w t s K fuel st'

/-- Queue seeding of lines 173-177: every box whose score strictly
exceeds the score threshold enters the queue with
suppress_begin_index 0. -/
def seedQueue (scores : List ℚ) (s : ℚ) : List Cand :=
  (List.range scores.length).filterMap fun i =>
    if s < scores.getD i 0 then some ⟨i, scores.getD i 0, 0⟩ else none

/-- DoNonMaxSuppressionOp (lines 146-257, computational part): seed the
queue, build the suppression weight from the soft-nms sigma (scale is
-1/2 divided by sigma when sigma is positive, else 0; lines 179-182) and
run the selection loop.  K is the max_output_size scalar. -/
def doNonMaxSuppression (expFn : ℚ → ℚ) (simFn : ℕ → ℕ → ℚ)
    (scores : List ℚ) (K : ℕ) (t s sigma : ℚ) (fuel : ℕ) : NmsState :=
  nmsLoop simFn
    (suppressWeight expFn t (if 0 < sigma then -(1/2) / sigma else 0))
    t s K fuel ⟨seedQueue scores s, [], [], []⟩

/-- The most negative finite single-precision float,
std::numeric_limits of float, lowest(), as an exact rational:
-(2 - 2 to the -23) * 2 to the 127. -/
def lowestFloat : ℚ := -((2 ^ 128 : ℚ) - 2 ^ 104)

/-- The registered NonMaxSuppression3D kernel (lines 508-535): IOU-backed
similarity, score threshold fixed to the most negative finite float,
soft-nms sigma fixed to 0, and only the selected-indices output. -/
def nonMaxSuppression3D (expFn : ℚ → ℚ) (boxes : List Box3)
    (scores : List ℚ) (K : ℕ) (iouThreshold : ℚ) (fuel : ℕ) : List ℕ :=
  (doNonMaxSuppression expFn (IOU boxes) scores K iouThreshold
    lowestFloat 0 fuel).selected

/-- Clamping of one emitted coordinate into [0, 1] when clip_boxes is
set: std::max(std::min(coord, 1), 0) (lines 429-443). -/
def clip01 (v : ℚ) : ℚ := max (min v 1) 0

/-- A per-batch result candidate of BatchedNonMaxSuppressionOp
(lines 305-310): box index, score, class index, box coordinates. -/
structure ResultCandidate where
  boxIndex : ℕ
  score : ℚ
  classIdx : ℕ
  boxCoord : Box3
deriving DecidableEq

/-- Per-class box extraction (lines 324-336): box set shared across
classes when the class dimension q is 1, class-specific otherwise.
batchBoxes is the [num_boxes][q] nested view of the batch's box buffer. -/
def classBoxes (batchBoxes : List (List Box3)) (q classIdx : ℕ) :
    List Box3 :=
  batchBoxes.map fun perBox =>
    if 1 < q then perBox.getD classIdx default else perBox.getD 0 default

/-- Per-class score column extraction (line 327). -/
def classScores (batchScores : List (List ℚ)) (classIdx : ℕ) : List ℚ :=
  batchScores.map fun perBox => perBox.getD classIdx 0

/-- Candidate list of one class (lines 355-360): indices with score
strictly above the score threshold, in box order. -/
def classCandidates (cs : List ℚ) (s : ℚ) : List (ℕ × ℚ) :=
  (List.range cs.length).filterMap fun i =>
    if s < cs.getD i 0 then some (i, cs.getD i 0) else none

/-- Insertion of one candidate into a score-descending list.  Models the
effect of std::sort with the score-greater comparator of line 352; the
comparator ignores indices, std::sort leaves the relative order of
equal-score elements unspecified, and every property proved below is
independent of that order. -/
def insertDesc {a : Type} (key : a → ℚ) (c : a) : List a → List a
  | [] => [c]
  | d :: rest =>
    if key d < key c then c :: d :: rest else d :: insertDesc key c rest

/-- Score-descending sort (std::sort of lines 366 and 406). -/
def sortDesc {a : Type} (key : a → ℚ) (l : List a) : List a :=
  l.foldr (insertDesc key) []

/-- The greedy per-class hard-suppression loop of lines 370-400: walk the
sorted candidates while fewer than cap boxes are selected; a candidate is
selected exactly when its IOU with every previously selected box of the
class is at most the threshold (the source discards it as soon as one
IOU is strictly above iou_threshold, line 382); each selection records
box index, score, class index and the box coordinates. -/
def classNMS (boxes : List Box3) (t : ℚ) (cap clsIdx : ℕ) :
    List (ℕ × ℚ) → List ℕ → List ResultCandidate
  | [], _ => []
  | c :: rest, selected =>
    if selected.length < cap then
      if selected.all fun sj => IOU boxes c.1 sj ≤ t then
        ⟨c.1, c.2, clsIdx, boxes.getD c.1 default⟩ ::
          classNMS boxes t cap clsIdx rest (selected ++ [c.1])
      else classNMS boxes t cap clsIdx rest selected
    else []

/-- Emission of the final coordinates for the picked candidates
(lines 426-455): six coordinates per candidate, clamped into [0, 1] when
clip_boxes is set. -/
def emitBoxes (clip : Bool) (rcs : List ResultCandidate) : List ℚ :=
  rcs.foldr
    (fun rc acc =>
      (if clip then
        [clip01 rc.boxCoord.y1, clip01 rc.boxCoord.x1, clip01 rc.boxCoord.z1,
         clip01 rc.boxCoord.y2, clip01 rc.boxCoord.x2, clip01 rc.boxCoord.z2]
      else
        [rc.boxCoord.y1, rc.boxCoord.x1, rc.boxCoord.z1,
         rc.boxCoord.y2, rc.boxCoord.x2, rc.boxCoord.z2]) ++ acc)
    []

/-- std::vector resize(n, 0) of lines 457-459: truncate or zero-pad to
exactly n entries. -/
def resizeQ (l : List ℚ) (n : ℕ) : List ℚ :=
  l.take n ++ List.replicate (n - l.length) 0

/-- One batch element's outputs of the batched engine: flattened box
coordinates, scores, class labels (integral classes emitted as
rationals), valid-detection count and the batch's output width. -/
structure BatchOut where
  boxes : List ℚ
  scores : List ℚ
  classes : List ℚ
  valid : ℕ
  width : ℕ
deriving DecidableEq

/-- The per-batch body of BatchedNonMaxSuppressionOp (lines 299-459):
per-class filtering, score sort and greedy hard suppression; cross-class
merge sorted by score; the output width and valid-detection count per
the pad_per_class flag (lines 408-419); emission with optional clipping
and zero padding. -/
def batchedNMSBatch (batchBoxes : List (List Box3))
    (batchScores : List (List ℚ)) (numBoxes q numClasses : ℕ)
    (maxSizePerClass totalSizePerBatch : ℕ) (s t : ℚ)
    (padPerClass clip : Bool) : BatchOut :=
  let cap := min maxSizePerClass numBoxes
  let rcAll :=
    ((List.range numClasses).map fun clsIdx =>
      classNMS (classBoxes batchBoxes q clsIdx) t cap clsIdx
        (sortDesc (fun c => c.2)
          (classCandidates (classScores batchScores clsIdx) s)) []).flatten
  let rcSorted := sortDesc (fun rc => rc.score) rcAll
  let perBatchSize :=
    if padPerClass then min totalSizePerBatch (maxSizePerClass * numClasses)
    else totalSizePerBatch
  let maxDetections :=
    if padPerClass then min perBatchSize rcSorted.length
    else min rcSorted.length totalSizePerBatch
  let picked := rcSorted.take maxDetections
  { boxes := resizeQ (emitBoxes clip picked) (perBatchSize * 6)
    scores := resizeQ (picked.map fun rc => rc.score) perBatchSize
    classes := resizeQ (picked.map fun rc => (rc.classIdx : ℚ)) perBatchSize
    valid := maxDetections
    width := perBatchSize }

/-- BatchedNonMaxSuppressionOp over all batch elements (lines 278-496):
each batch element is processed independently by the per-batch body. -/
def batchedNonMaxSuppression (inpBoxes : List (List (List Box3)))
    (inpScores : List (List (List ℚ))) (numBoxes q numClasses : ℕ)
    (maxSizePerClass totalSizePerBatch : ℕ) (s t : ℚ)
    (padPerClass clip : Bool) : List BatchOut :=
  (List.range inpBoxes.length).map fun batch =>
    batchedNMSBatch (inpBoxes.getD batch []) (inpScores.getD batch [])
      numBoxes q numClasses maxSizePerClass totalSizePerBatch s t
      padPerClass clip

/-- The sampling method attribute of CropAndResize3D: validated at kernel
construction to be one of the two method names. -/
inductive Method where
  | trilinear : Method
  | nearest : Method
deriving DecidableEq

/-- Write one cell of a buffer; out-of-range writes leave the buffer
unchanged (an out-of-range write in the C++ kernel is undefined
behaviour; none of the runs examined below performs one that lands
outside the allocated output). -/
def listSet {a : Type} : List a → ℕ → a → List a
  | [], _, _ => []
  | _ :: rest, 0, v => v :: rest
  | x :: rest, n + 1, v => x :: listSet rest n v

/-- The continuous source coordinate of output index i along one axis
(lines 654-657, 673-676, 690-693 and their nearest-branch twins): for a
target extent above 1, corner1 * (dim - 1) + i * scale with
scale = (corner2 - corner1) * (dim - 1) / (targetExtent - 1); for a
target extent of 1, the span midpoint (corner1 + corner2) / 2 scaled by
dim - 1. -/
def coordMap (c1 c2 : ℚ) (dim targetExtent : ℕ) (i : ℕ) : ℚ :=
  if 1 < targetExtent then
    c1 * ((dim : ℚ) - 1) +
      (i : ℚ) * ((c2 - c1) * ((dim : ℚ) - 1) / ((targetExtent : ℚ) - 1))
  else (1 / 2) * (c1 + c2) * ((dim : ℚ) - 1)

/-- Row-major offset into the 5-D source volume of shape
(batch, H, W, D, channels). -/
def imageOffset (H W D Ch b y x z d : ℕ) : ℕ :=
  (((b * H + y) * W + x) * D + z) * Ch + d

/-- Read one source voxel. -/
def imageAt (image : List ℚ) (H W D Ch b y x z d : ℕ) : ℚ :=
  image.getD (imageOffset H W D Ch b y x z d) 0

/-- Row-major offset into the 5-D output of shape
(num_boxes, crop_height, crop_width, crop_depth, channels); this is the
Eigen index arithmetic behind croppedT(b, y, x, z, d). -/
def cropOffset (ch cw cd Ch b y x z d : ℕ) : ℕ :=
  (((b * ch + y) * cw + x) * cd + z) * Ch + d

/-- Store the extrapolation value at every listed offset. -/
def fillWith (v : ℚ) (out : List (Option ℚ)) (offs : List ℕ) :
    List (Option ℚ) :=
  offs.foldl (fun o i => listSet o i (some v)) out

/-- The body of the per-box loop of CropAndResize3DOp::Compute
(lines 633-766) for one box b, threading the output buffer through the
nested y / x / z / channel loops.  The per-axis in-range checks write the
extrapolation value on failure and skip the remaining axes.  The
trilinear branch blends the eight floor/ceil corner voxels depth-first,
then width, then height.  The nearest branch copies the voxel at the
rounded coordinates; its z loop iterates z from 0 to crop_width - 1
(line 745 of the source reads z < crop_width, not z < crop_depth), which
this embedding reproduces verbatim. -/
def cropBox (method : Method) (extrap : ℚ) (image : List ℚ)
    (H W D Ch : ℕ) (boxes : List Box3) (boxInd : List ℕ)
    (ch cw cd : ℕ) (out0 : List (Option ℚ)) (b : ℕ) : List (Option ℚ) :=
  let bx := boxes.getD b default
  let bIn := boxInd.getD b 0
  (List.range ch).foldl
    (fun out y =>
      let inY := coordMap bx.y1 bx.y2 H ch y
      if inY < 0 ∨ (H : ℚ) - 1 < inY then
        fillWith extrap out
          ((List.range cw).flatMap fun x =>
            (List.range cd).flatMap fun z =>
              (List.range Ch).map fun d => cropOffset ch cw cd Ch b y x z d)
      else
        match method with
        | Method.trilinear =>
          let topY := (⌊inY⌋).toNat
          let botY := (⌈inY⌉).toNat
          let yLerp := inY - ⌊inY⌋
          (List.range cw).foldl
            (fun out x =>
              let inX := coordMap bx.x1 bx.x2 W cw x
              if inX < 0 ∨ (W : ℚ) - 1 < inX then
                fillWith extrap out
                  ((List.range cd).flatMap fun z =>
                    (List.range Ch).map fun d =>
                      cropOffset ch cw cd Ch b y x z d)
              else
                let leftX := (⌊inX⌋).toNat
                let rightX := (⌈inX⌉).toNat
                let xLerp := inX - ⌊inX⌋
                (List.range cd).foldl
                  (fun out z =>
                    let inZ := coordMap bx.z1 bx.z2 D cd z
                    if inZ < 0 ∨ (D : ℚ) - 1 < inZ then
                      fillWith extrap out
                        ((List.range Ch).map fun d =>
                          cropOffset ch cw cd Ch b y x z d)
                    else
                      let fwdZ := (⌊inZ⌋).toNat
                      let bwdZ := (⌈inZ⌉).toNat
                      let zLerp := inZ - ⌊inZ⌋
                      (List.range Ch).foldl
                        (fun out d =>
                          let tlf := imageAt image H W D Ch bIn topY leftX fwdZ d
                          let tlb := imageAt image H W D Ch bIn topY leftX bwdZ d
                          let trf := imageAt image H W D Ch bIn topY rightX fwdZ d
                          let trb := imageAt image H W D Ch bIn topY rightX bwdZ d
                          let blf := imageAt image H W D Ch bIn botY leftX fwdZ d
                          let blb := imageAt image H W D Ch bIn botY leftX bwdZ d
                          let brf := imageAt image H W D Ch bIn botY rightX fwdZ d
                          let brb := imageAt image H W D Ch bIn botY rightX bwdZ d
                          let tl := tlf + (tlb - tlf) * zLerp
                          let tr := trf + (trb - trf) * zLerp
                          let bl := blf + (blb - blf) * zLerp
                          let br := brf + (brb - brf) * zLerp
                          let top := tl + (tr - tl) * xLerp
                          let bot := bl + (br - bl) * xLerp
                          listSet out (cropOffset ch cw cd Ch b y x z d)
                            (some (top + (bot - top) * yLerp)))
                        out)
                  out)
            out
        | Method.nearest =>
          (List.range cw).foldl
            (fun out x =>
              let inX := coordMap bx.x1 bx.x2 W cw x
              if inX < 0 ∨ (W : ℚ) - 1 < inX then
                fillWith extrap out
                  ((List.range cd).flatMap fun z =>
                    (List.range Ch).map fun d =>
                      cropOffset ch cw cd Ch b y x z d)
              else
                (List.range cw).foldl
                  (fun out z =>
                    let inZ := coordMap bx.z1 bx.z2 D cd z
                    if inZ < 0 ∨ (D : ℚ) - 1 < inZ then
                      fillWith extrap out
                        ((List.range Ch).map fun d =>
                          cropOffset ch cw cd Ch b y x z d)
                    else
                      let closestX := (round inX).toNat
                      let closestY := (round inY).toNat
                      let closestZ := (round inZ).toNat
                      (List.range Ch).foldl
                        (fun out d =>
                          listSet out (cropOffset ch cw cd Ch b y x z d)
                            (some (imageAt image H W D Ch bIn
                              closestY closestX closestZ d)))
                        out)
                  out)
            out)
    out0

/-- The full computational loop of CropAndResize3DOp::Compute over all
boxes, starting from the freshly allocated (fully unassigned) output
buffer of shape (num_boxes, crop_height, crop_width, crop_depth,
channels). -/
def cropKernel (method : Method) (extrap : ℚ) (image : List ℚ)
    (H W D Ch : ℕ) (boxes : List Box3) (boxInd : List ℕ)
    (ch cw cd : ℕ) : List (Option ℚ) :=
  (List.range boxes.length).foldl
    (cropBox method extrap image H W D Ch boxes boxInd ch cw cd)
    (List.replicate (boxes.length * ch * cw * cd * Ch) none)

/-- CropAndResize3DOp::Compute (lines 588-767): the initial validations
that the typed model can express (positive image dimensions, matching
boxes / box_index lengths, positive crop dimensions; the rank and
method-name checks are absorbed by the types), then the sampling loop.
Failure is reported before any output element is produced. -/
def cropAndResize3DOp (method : Method) (extrap : ℚ) (image : List ℚ)
    (H W D Ch : ℕ) (boxes : List Box3) (boxInd : List ℕ)
    (ch cw cd : ℕ) : Except String (List (Option ℚ)) :=
  if ¬(0 < H ∧ 0 < W ∧ 0 < D) then
    Except.error "image dimensions must be positive"
  else if boxes.length ≠ boxInd.length then
    Except.error "box_index has incompatible shape"
  else if ¬(0 < ch ∧ 0 < cw ∧ 0 < cd) then
    Except.error "crop dimensions must be positive"
  else Except.ok (cropKernel method extrap image H W D Ch boxes boxInd ch cw cd)

/-- Loop invariant behind the comparison-count bound of the single-class
engine: the trace of similarity evaluations is duplicate-free, every
traced pair names a box below N and a slot below K, at most K boxes are
selected, every queued candidate names a box below N with a
suppress_begin_index at most the selected count such that all its traced
comparisons lie strictly below that index, and no box index occurs twice
in the queue. -/
def nmsInv (N K : ℕ) (st : NmsState) : Prop :=
  st.trace.Nodup ∧
  (∀ p ∈ st.trace, p.1 < N ∧ p.2 < K) ∧
  st.selected.length ≤ K ∧
  (∀ c ∈ st.queue, c.box < N ∧ c.sbi ≤ st.selected.length ∧
    ∀ j, (c.box, j) ∈ st.trace → j < c.sbi) ∧
  (st.queue.map Cand.box).Nodup

/-- Score invariant of a hard-only run (suppression weight 1 at or below
the similarity threshold): every queued candidate still carries its
original score and the recorded selection scores are exactly the
original scores of the selected boxes. -/
def hardOnlyInv (scores : List ℚ) (st : NmsState) : Prop :=
  (∀ c ∈ st.queue, c.score = scores.getD c.box 0) ∧
  st.selScores = st.selected.map fun i => scores.getD i 0


theorem popMax_eq_none {q : List Cand} (h : popMax q = none) : q = [] := by
  cases q with
  | nil => rfl
  | cons a rest =>
    rw [popMax] at h
    cases hrest : popMax rest with
    | none => rw [hrest] at h; dsimp only at h; exact absurd h (by simp)
    | some p =>
      obtain ⟨m, r'⟩ := p
      rw [hrest] at h; dsimp only at h
      split at h <;> simp at h

theorem popMax_ge (q : List Cand) : ∀ c q', popMax q = some (c, q') →
    ∀ d ∈ q, d.score ≤ c.score ∧ (d.score = c.score → c.box ≤ d.box) := by
  induction q with
  | nil => intro c q' h; simp [popMax] at h
  | cons a rest ih =>
    intro c q' h
    rw [popMax] at h
    cases hrest : popMax rest with
    | none =>
      rw [hrest] at h; dsimp only at h
      have ha : a = c := by simpa using congrArg (fun o => o.map Prod.fst) h
      subst ha
      have hr : rest = [] := popMax_eq_none hrest
      subst hr
      intro d hd
      have : d = a := by simpa using hd
      subst this
      exact ⟨le_refl _, fun _ => le_refl _⟩
    | some p =>
      obtain ⟨m, rest'⟩ := p
      rw [hrest] at h; dsimp only at h
      by_cases hlt : candLt a m
      · rw [if_pos hlt] at h
        have hm : m = c := by simpa using congrArg (fun o => o.map Prod.fst) h
        subst hm
        intro d hd
        rcases List.mem_cons.mp hd with rfl | hd'
        · rcases hlt with ⟨heq, hbox⟩ | hsc
          · exact ⟨le_of_eq heq, fun _ => le_of_lt hbox⟩
          · refine ⟨le_of_lt hsc, fun he => absurd hsc ?_⟩
            rw [he]; exact lt_irrefl _
        · exact ih m rest' hrest d hd'
      · rw [if_neg hlt] at h
        have ha : a = c := by simpa using congrArg (fun o => o.map Prod.fst) h
        subst ha
        intro d hd
        rcases List.mem_cons.mp hd with rfl | hd'
        · exact ⟨le_refl _, fun _ => le_refl _⟩
        · have hm := ih m rest' hrest d hd'
          have h1 := not_or.mp hlt
          have hms : m.score ≤ a.score := le_of_not_lt h1.2
          refine ⟨le_trans hm.1 hms, fun hde => ?_⟩
          have hma : m.score = a.score :=
            le_antisymm hms (by rw [← hde]; exact hm.1)
          have hab : a.box ≤ m.box :=
            le_of_not_lt fun hb => h1.1 ⟨hma.symm, hb⟩
          have hmd : m.box ≤ d.box := hm.2 (by rw [hde, ← hma])
          exact le_trans hab hmd

/-- C9: in the single-class engine's priority queue, an entry with the
larger box index among equal scores is strictly smaller in the
comparator order, and the popped candidate has a score at least every
queue entry's score and, among equal-score entries, the least box index;
the pop order is thus a deterministic function of the (score, box index)
pairs. -/
theorem nms_queue_tiebreak :
    (∀ a b : Cand, a.score = b.score → b.box < a.box → candLt a b) ∧
    (∀ q c q', popMax q = some (c, q') → ∀ d ∈ q,
      d.score ≤ c.score ∧ (d.score = c.score → c.box ≤ d.box)) :=
  ⟨fun _ _ he hb => Or.inl ⟨he, hb⟩, fun q => popMax_ge q⟩

/-- Witness for C9 at a concrete two-entry queue with equal scores: the
entry with box index 0 is popped before the entry with box index 1. -/
theorem nms_queue_tiebreak_witness :
    popMax [⟨1, 1/2, 0⟩, ⟨0, 1/2, 0⟩] = some (⟨0, 1/2, 0⟩, [⟨1, 1/2, 0⟩]) ∧
    ((⟨1, 1/2, 0⟩ : Cand).score ≤ (⟨0, 1/2, 0⟩ : Cand).score ∧
      ((⟨1, 1/2, 0⟩ : Cand).score = (⟨0, 1/2, 0⟩ : Cand).score →
        (⟨0, 1/2, 0⟩ : Cand).box ≤ (⟨1, 1/2, 0⟩ : Cand).box)) :=
  ⟨by decide,
   nms_queue_tiebreak.2 [⟨1, 1/2, 0⟩, ⟨0, 1/2, 0⟩] ⟨0, 1/2, 0⟩
     [⟨1, 1/2, 0⟩] (by decide) ⟨1, 1/2, 0⟩ (by decide)⟩

/-- C8: IOU of a positive-volume box with itself is 1, and IOU of any
box with a degenerate (zero-volume) box is 0 in both argument orders,
with no failure. -/
theorem iou_self_one_degenerate_zero (b d : Box3) :
    (0 < boxVol b → IOU [b, d] 0 0 = 1) ∧
    (boxVol d = 0 → IOU [b, d] 0 1 = 0 ∧ IOU [b, d] 1 0 = 0) := by
  constructor
  · intro hb
    have e1 : (0 : ℚ) ≤ max b.y1 b.y2 - min b.y1 b.y2 :=
      sub_nonneg.mpr min_le_max
    have e2 : (0 : ℚ) ≤ max b.x1 b.x2 - min b.x1 b.x2 :=
      sub_nonneg.mpr min_le_max
    have e3 : (0 : ℚ) ≤ max b.z1 b.z2 - min b.z1 b.z2 :=
      sub_nonneg.mpr min_le_max
    unfold IOU
    simp only [List.getD_cons_zero, max_self, min_self]
    rw [if_neg (by simp only [not_or, not_le]; exact ⟨hb, hb⟩)]
    unfold boxVol at hb ⊢
    rw [max_eq_left e1, max_eq_left e2, max_eq_left e3, add_sub_cancel_right]
    exact div_self (ne_of_gt hb)
  · intro hd
    constructor
    · unfold IOU
      simp only [List.getD_cons_zero, List.getD_cons_succ]
      rw [if_pos (Or.inr (le_of_eq hd))]
    · unfold IOU
      simp only [List.getD_cons_zero, List.getD_cons_succ]
      rw [if_pos (Or.inl (le_of_eq hd))]

/-- Witness for C8: the unit box (volume 1) against the all-zero
degenerate box; both hypotheses are discharged concretely. -/
theorem iou_self_one_degenerate_zero_witness :
    IOU [⟨0, 0, 0, 1, 1, 1⟩, ⟨0, 0, 0, 0, 0, 0⟩] 0 0 = 1 ∧
    IOU [⟨0, 0, 0, 1, 1, 1⟩, ⟨0, 0, 0, 0, 0, 0⟩] 0 1 = 0 ∧
    IOU [⟨0, 0, 0, 1, 1, 1⟩, ⟨0, 0, 0, 0, 0, 0⟩] 1 0 = 0 :=
  ⟨(iou_self_one_degenerate_zero ⟨0, 0, 0, 1, 1, 1⟩ ⟨0, 0, 0, 0, 0, 0⟩).1
      (by decide),
   ((iou_self_one_degenerate_zero ⟨0, 0, 0, 1, 1, 1⟩ ⟨0, 0, 0, 0, 0, 0⟩).2
      (by decide)).1,
   ((iou_self_one_degenerate_zero ⟨0, 0, 0, 1, 1, 1⟩ ⟨0, 0, 0, 0, 0, 0⟩).2
      (by decide)).2⟩

theorem suppressWeight_exp_one (expFn : ℚ → ℚ) (t : ℚ) (h : expFn 0 = 1) :
    suppressWeight expFn t 0 = suppressWeight (fun _ => 1) t 0 := by
  funext x
  unfold suppressWeight
  rw [zero_mul, zero_mul, h]

theorem doNMS_sigma_zero_exp (expFn : ℚ → ℚ) (simFn : ℕ → ℕ → ℚ)
    (scores : List ℚ) (K : ℕ) (t s : ℚ) (fuel : ℕ) (h : expFn 0 = 1) :
    doNonMaxSuppression expFn simFn scores K t s 0 fuel =
      doNonMaxSuppression (fun _ => 1) simFn scores K t s 0 fuel := by
  unfold doNonMaxSuppression
  rw [if_neg (lt_irrefl (0 : ℚ)), suppressWeight_exp_one expFn t h]

set_option maxRecDepth 40000 in
/-- C1: on one degenerate (zero-volume) box with score 1/2, the
registered single-class operation with max_output_size 2 and IOU
threshold 1/2 returns the index 0 twice: the selection engine re-inserts
a just-selected candidate (no continue between the two ifs of
lines 236-247), the re-popped candidate's self-similarity is 0 for a
degenerate box, and it is selected again, so the returned indices are
not pairwise distinct.  The hypothesis pins the single value of std::exp
the run relies on, exp(0) = 1. -/
theorem nms3d_duplicate_selected_index (expFn : ℚ → ℚ) (h : expFn 0 = 1) :
    nonMaxSuppression3D expFn [⟨0, 0, 0, 0, 0, 0⟩] [1/2] 2 (1/2) 10 =
      [0, 0] := by
  unfold nonMaxSuppression3D
  rw [doNMS_sigma_zero_exp _ _ _ _ _ _ _ h]
  decide

/-- Witness for C1 at the concrete exponential stub, which satisfies the
hypothesis exp(0) = 1. -/
theorem nms3d_duplicate_selected_index_witness :
    ((fun _ : ℚ => (1 : ℚ)) 0 = 1) ∧
    nonMaxSuppression3D (fun _ => 1) [⟨0, 0, 0, 0, 0, 0⟩] [1/2] 2 (1/2) 10 =
      [0, 0] :=
  ⟨rfl, nms3d_duplicate_selected_index (fun _ => 1) rfl⟩

set_option maxRecDepth 40000 in
/-- C2: one pop of the selection loop on a single positive-volume box
with score 1/2 (seeded by the registered operation's parameters,
max_output_size 2, IOU threshold 1/2).  The popped candidate is not hard
suppressed and its score is unchanged (the inner loop compares against
nothing), so the claim requires it to be selected and not re-inserted;
the code selects it and re-inserts it: the post-state queue still holds
the candidate.  The similarity and weight functions are irrelevant to
this pop and stay universally quantified. -/
theorem nms_selected_also_reinserted (simFn : ℕ → ℕ → ℚ) (w : ℚ → ℚ) :
    nmsStep simFn w (1/2) lowestFloat 2
        ⟨seedQueue [1/2] lowestFloat, [], [], []⟩ =
      some ⟨[⟨0, 1/2, 0⟩], [0], [1/2], []⟩ := by
  rfl

/-- Witness for C2 (the theorem's binders are data, not hypotheses; this
instantiates them concretely all the same). -/
theorem nms_selected_also_reinserted_witness :
    nmsStep (fun _ _ => 0) (fun _ => 1) (1/2) lowestFloat 2
        ⟨seedQueue [1/2] lowestFloat, [], [], []⟩ =
      some ⟨[⟨0, 1/2, 0⟩], [0], [1/2], []⟩ :=
  nms_selected_also_reinserted (fun _ _ => 0) (fun _ => 1)

set_option maxRecDepth 40000 in
/-- C10 counterexample: a box whose score equals the most negative
finite float is not seeded into the priority queue (seeding requires a
strictly larger score, line 174), so the registered operation returns no
index for it although the claim says every box is seeded regardless of
its score and a sole seeded box would be selected. -/
theorem nms3d_lowest_score_not_seeded :
    seedQueue [lowestFloat] lowestFloat = [] ∧
    nonMaxSuppression3D (fun _ => 1) [⟨0, 0, 0, 1, 1, 1⟩] [lowestFloat] 1
        (1/2) 10 = [] := by
  constructor
  · rfl
  · rfl

/-- C3: nearest-method crop of the full box (0,0,0,1,1,1) at crop shape
(1,1,2) equal to the source shape (H,W,D) = (1,1,2).  The claim requires
the output to equal the source volume (5, 7) voxel for voxel; the
nearest branch's z loop runs z from 0 to crop_width - 1 = 0 (line 745
reads z < crop_width instead of z < crop_depth), so output position
z = 1 is never assigned. -/
theorem crop_nearest_identity_fails :
    (cropAndResize3DOp Method.nearest (-1) [5, 7] 1 1 2 1
        [⟨0, 0, 0, 1, 1, 1⟩] [0] 1 1 2).toOption = some [some 5, none] := by
  rfl

/-- C4: the same nearest-method run on source (2, 3) passes every
initial validation (the operation returns a success value), yet the
produced output is not fully populated: its element at flat offset 1 is
still unassigned. -/
theorem crop_nearest_partial_output :
    (cropAndResize3DOp Method.nearest 9 [2, 3] 1 1 2 1
        [⟨0, 0, 0, 1, 1, 1⟩] [0] 1 1 2).toOption = some [some 2, none] := by
  rfl

/-- C6: with box (0,0,0,1,1,3) over source shape (1,1,2) and crop shape
(1,1,2), the continuous z coordinate of output position z = 1 is 3,
outside [0, D-1] = [0, 1], while the y and x coordinates are in range;
the claim requires the extrapolation constant 9 at that position, but
the nearest branch's mis-bounded z loop (line 745) never visits it and
the output there stays unassigned. -/
theorem crop_nearest_oor_position_unwritten :
    ((2 : ℚ) - 1 < coordMap 0 3 2 2 1) ∧
    (cropAndResize3DOp Method.nearest 9 [4, 6] 1 1 2 1
        [⟨0, 0, 0, 1, 1, 3⟩] [0] 1 1 2).toOption = some [some 4, none] ∧
    (cropKernel Method.nearest 9 [4, 6] 1 1 2 1 [⟨0, 0, 0, 1, 1, 3⟩] [0]
        1 1 2).getD (cropOffset 1 1 2 1 0 0 0 1 0) none = none := by
  refine ⟨by norm_num [coordMap], rfl, rfl⟩

theorem popMax_perm (q : List Cand) : ∀ c q', popMax q = some (c, q') →
    q.Perm (c :: q') := by
  induction q with
  | nil => intro c q' h; simp [popMax] at h
  | cons a rest ih =>
    intro c q' h
    rw [popMax] at h
    cases hrest : popMax rest with
    | none =>
      rw [hrest] at h; dsimp only at h
      rw [Option.some.injEq, Prod.mk.injEq] at h
      obtain ⟨rfl, rfl⟩ := h
      have : rest = [] := popMax_eq_none hrest
      subst this
      exact List.Perm.refl _
    | some p =>
      obtain ⟨m, rest'⟩ := p
      rw [hrest] at h; dsimp only at h
      by_cases hlt : candLt a m
      · rw [if_pos hlt, Option.some.injEq, Prod.mk.injEq] at h
        obtain ⟨rfl, rfl⟩ := h
        refine ((ih _ _ hrest).cons a).trans ?_
        exact List.Perm.swap _ _ _
      · rw [if_neg hlt, Option.some.injEq, Prod.mk.injEq] at h
        obtain ⟨rfl, rfl⟩ := h
        exact List.Perm.refl _

theorem nmsLoop_inv (simFn : ℕ → ℕ → ℚ) (w : ℚ → ℚ) (t s : ℚ) (K : ℕ)
    (P : NmsState → Prop)
    (hstep : ∀ st st', nmsStep simFn w t s K st = some st' → P st → P st') :
    ∀ fuel st, P st → P (nmsLoop simFn w t s K fuel st) := by
  intro fuel
  induction fuel with
  | zero => intro st h; exact h
  | succ n ih =>
    intro st h
    rw [nmsLoop]
    cases hstep' : nmsStep simFn w t s K st with
    | none => exact h
    | some st' => exact ih st' (hstep st st' hstep' h)

theorem innerLoop_hard_or_unchanged (simFn : ℕ → ℕ → ℚ) (w : ℚ → ℚ)
    (t s : ℚ) (selected : List ℕ) (b : ℕ) (hw : ∀ x, x ≤ t → w x = 1) :
    ∀ idxs score,
      (innerLoop simFn w t s selected b idxs score).2.1 = true ∨
      (innerLoop simFn w t s selected b idxs score).1 = score := by
  intro idxs
  induction idxs with
  | nil => intro score; right; rfl
  | cons j rest ih =>
    intro score
    rw [innerLoop]
    dsimp only
    by_cases hts : t ≤ simFn b (selected.getD j 0)
    · rw [if_pos hts]; left; rfl
    · have h1 : w (simFn b (selected.getD j 0)) = 1 :=
        hw _ (le_of_lt (lt_of_not_le hts))
      rw [if_neg hts, h1, mul_one]
      by_cases hss : score ≤ s
      · rw [if_pos hss]; right; rfl
      · rw [if_neg hss]
        dsimp only
        exact ih score

theorem seedQueue_elem (scores : List ℚ) (s : ℚ) :
    ∀ c ∈ seedQueue scores s,
      c.box < scores.length ∧ c.sbi = 0 ∧ c.score = scores.getD c.box 0 := by
  intro c hc
  unfold seedQueue at hc
  rw [List.mem_filterMap] at hc
  obtain ⟨j, hj, hcj⟩ := hc
  by_cases hs : s < scores.getD j 0
  · rw [if_pos hs, Option.some.injEq] at hcj
    subst hcj
    exact ⟨List.mem_range.mp hj, rfl, rfl⟩
  · rw [if_neg hs] at hcj; simp at hcj

theorem seedQueue_mem_iff (scores : List ℚ) (s : ℚ) :
    ∀ i, (∃ c ∈ seedQueue scores s, c.box = i) ↔
      i < scores.length ∧ s < scores.getD i 0 := by
  intro i
  constructor
  · rintro ⟨c, hc, rfl⟩
    refine ⟨(seedQueue_elem scores s c hc).1, ?_⟩
    unfold seedQueue at hc
    rw [List.mem_filterMap] at hc
    obtain ⟨j, hj, hcj⟩ := hc
    by_cases hs : s < scores.getD j 0
    · rw [if_pos hs, Option.some.injEq] at hcj
      subst hcj
      exact hs
    · rw [if_neg hs] at hcj; simp at hcj
  · rintro ⟨hlen, hs⟩
    refine ⟨⟨i, scores.getD i 0, 0⟩, ?_, rfl⟩
    unfold seedQueue
    rw [List.mem_filterMap]
    exact ⟨i, List.mem_range.mpr hlen, by rw [if_pos hs]⟩

theorem nmsStep_hardOnly (simFn : ℕ → ℕ → ℚ) (w : ℚ → ℚ) (t s : ℚ) (K : ℕ)
    (scores : List ℚ) (hw : ∀ x, x ≤ t → w x = 1) :
    ∀ st st', nmsStep simFn w t s K st = some st' →
      hardOnlyInv scores st → hardOnlyInv scores st' := by
  intro st st' hstep hP
  unfold nmsStep at hstep
  by_cases hK : st.selected.length < K
  case neg => rw [if_neg hK] at hstep; exact absurd hstep (by simp)
  rw [if_pos hK] at hstep
  cases hpop : popMax st.queue with
  | none => rw [hpop] at hstep; exact absurd hstep (by simp)
  | some p =>
    obtain ⟨c, rest⟩ := p
    rw [hpop] at hstep
    dsimp only at hstep
    have hperm := popMax_perm st.queue c rest hpop
    have hcq : c ∈ st.queue := hperm.mem_iff.mpr (List.mem_cons_self c rest)
    have hrest : ∀ d ∈ rest, d.score = scores.getD d.box 0 := fun d hd =>
      hP.1 d (hperm.mem_iff.mpr (List.mem_cons_of_mem c hd))
    have hcs : c.score = scores.getD c.box 0 := hP.1 c hcq
    by_cases hhard :
      (innerLoop simFn w t s st.selected c.box
        (revRange c.sbi st.selected.length) c.score).2.1 = true
    · rw [if_pos hhard] at hstep
      rw [Option.some.injEq] at hstep
      subst hstep
      exact ⟨hrest, hP.2⟩
    · rw [if_neg hhard] at hstep
      have hunch :
          (innerLoop simFn w t s st.selected c.box
            (revRange c.sbi st.selected.length) c.score).1 = c.score := by
        rcases innerLoop_hard_or_unchanged simFn w t s st.selected c.box hw
          (revRange c.sbi st.selected.length) c.score with hh | hu
        · exact absurd hh hhard
        · exact hu
      rw [if_pos hunch] at hstep
      by_cases hthr :
        s < (innerLoop simFn w t s st.selected c.box
          (revRange c.sbi st.selected.length) c.score).1
      · rw [if_pos hthr, Option.some.injEq] at hstep
        subst hstep
        constructor
        · intro d hd
          rcases List.mem_cons.mp hd with rfl | hd'
          · rw [hunch]; exact hcs
          · exact hrest d hd'
        · dsimp only
          rw [hP.2, List.map_append, List.map_cons, List.map_nil, hunch, hcs]
      · rw [if_neg hthr, Option.some.injEq] at hstep
        subst hstep
        constructor
        · exact hrest
        · dsimp only
          rw [hP.2, List.map_append, List.map_cons, List.map_nil, hunch, hcs]

/-- C10 (amended): the registered single-class operation invokes the
engine with soft-nms sigma 0 and score threshold equal to the most
negative finite float and produces only the selected-indices output; a
box is seeded into the priority queue exactly when its score strictly
exceeds that threshold (a score equal to it is dropped); and no score
decay is ever applied: every recorded selection score equals the
original input score of the selected box.  The hypothesis pins the only
exponential value a sigma-0 run uses, exp(0) = 1. -/
theorem nms3d_hard_only_above_lowest (expFn : ℚ → ℚ) (boxes : List Box3)
    (scores : List ℚ) (K : ℕ) (t : ℚ) (fuel : ℕ) (h : expFn 0 = 1) :
    nonMaxSuppression3D expFn boxes scores K t fuel =
      (doNonMaxSuppression expFn (IOU boxes) scores K t lowestFloat 0
        fuel).selected ∧
    (doNonMaxSuppression expFn (IOU boxes) scores K t lowestFloat 0
        fuel).selScores =
      (doNonMaxSuppression expFn (IOU boxes) scores K t lowestFloat 0
        fuel).selected.map (fun i => scores.getD i 0) ∧
    (∀ i, (∃ c ∈ seedQueue scores lowestFloat, c.box = i) ↔
      i < scores.length ∧ lowestFloat < scores.getD i 0) := by
  refine ⟨rfl, ?_, seedQueue_mem_iff scores lowestFloat⟩
  have hw : ∀ x, x ≤ t →
      suppressWeight expFn t (if (0 : ℚ) < 0 then -(1/2) / (0 : ℚ) else 0) x
        = 1 := by
    intro x hx
    rw [if_neg (lt_irrefl (0 : ℚ))]
    unfold suppressWeight
    rw [if_pos hx, zero_mul, zero_mul, h]
  have hinv : hardOnlyInv scores
      (doNonMaxSuppression expFn (IOU boxes) scores K t lowestFloat 0
        fuel) := by
    unfold doNonMaxSuppression
    refine nmsLoop_inv _ _ t lowestFloat K (hardOnlyInv scores)
      (nmsStep_hardOnly _ _ _ _ _ scores hw) fuel _ ⟨?_, rfl⟩
    intro c hc
    exact (seedQueue_elem scores lowestFloat c hc).2.2
  exact hinv.2

/-- Witness for C10 (amended) at one positive-volume box with score
1/2. -/
theorem nms3d_hard_only_above_lowest_witness :
    nonMaxSuppression3D (fun _ => 1) [⟨0, 0, 0, 1, 1, 1⟩] [1/2] 1 (1/2) 5 =
      (doNonMaxSuppression (fun _ => 1) (IOU [⟨0, 0, 0, 1, 1, 1⟩]) [1/2] 1
        (1/2) lowestFloat 0 5).selected ∧
    (doNonMaxSuppression (fun _ => 1) (IOU [⟨0, 0, 0, 1, 1, 1⟩]) [1/2] 1
        (1/2) lowestFloat 0 5).selScores =
      (doNonMaxSuppression (fun _ => 1) (IOU [⟨0, 0, 0, 1, 1, 1⟩]) [1/2] 1
        (1/2) lowestFloat 0 5).selected.map (fun i => [(1:ℚ)/2].getD i 0) ∧
    (∀ i, (∃ c ∈ seedQueue [(1:ℚ)/2] lowestFloat, c.box = i) ↔
      i < [(1:ℚ)/2].length ∧ lowestFloat < [(1:ℚ)/2].getD i 0) :=
  nms3d_hard_only_above_lowest (fun _ => 1) [⟨0, 0, 0, 1, 1, 1⟩] [1/2] 1
    (1/2) 5 rfl

theorem clip01_bounds (v : ℚ) : 0 ≤ clip01 v ∧ clip01 v ≤ 1 :=
  ⟨le_max_right _ _, max_le (min_le_right _ _) zero_le_one⟩

theorem emitBoxes_clip_bounds (rcs : List ResultCandidate) :
    ∀ v ∈ emitBoxes true rcs, 0 ≤ v ∧ v ≤ 1 := by
  induction rcs with
  | nil => intro v hv; simp [emitBoxes] at hv
  | cons rc rest ih =>
    intro v hv
    have hv' : v ∈
        [clip01 rc.boxCoord.y1, clip01 rc.boxCoord.x1, clip01 rc.boxCoord.z1,
         clip01 rc.boxCoord.y2, clip01 rc.boxCoord.x2, clip01 rc.boxCoord.z2]
          ++ emitBoxes true rest := hv
    rcases List.mem_append.mp hv' with h6 | hrest
    · simp only [List.mem_cons, List.not_mem_nil, or_false] at h6
      rcases h6 with rfl | rfl | rfl | rfl | rfl | rfl <;>
        exact clip01_bounds _
    · exact ih v hrest

theorem resizeQ_mem (l : List ℚ) (n : ℕ) :
    ∀ v ∈ resizeQ l n, v ∈ l ∨ v = 0 := by
  intro v hv
  unfold resizeQ at hv
  rcases List.mem_append.mp hv with h | h
  · exact Or.inl ((List.take_sublist n l).subset h)
  · exact Or.inr (List.eq_of_mem_replicate h)

theorem innerLoop_trace (simFn : ℕ → ℕ → ℚ) (w : ℚ → ℚ) (t s : ℚ)
    (selected : List ℕ) (b : ℕ) :
    ∀ idxs score, ∃ m,
      (innerLoop simFn w t s selected b idxs score).2.2 =
        (idxs.take m).map fun j => (b, j) := by
  intro idxs
  induction idxs with
  | nil => intro score; exact ⟨0, rfl⟩
  | cons j rest ih =>
    intro score
    rw [innerLoop]
    dsimp only
    by_cases h1 : t ≤ simFn b (selected.getD j 0)
    · rw [if_pos h1]; exact ⟨1, rfl⟩
    · rw [if_neg h1]
      by_cases h2 : score * w (simFn b (selected.getD j 0)) ≤ s
      · rw [if_pos h2]; exact ⟨1, rfl⟩
      · rw [if_neg h2]
        dsimp only
        obtain ⟨m, hm⟩ := ih (score * w (simFn b (selected.getD j 0)))
        exact ⟨m + 1, by rw [List.take_succ_cons, List.map_cons, hm]⟩

theorem revRange_mem (sbi len j : ℕ) :
    j ∈ revRange sbi len ↔ sbi ≤ j ∧ j < len := by
  unfold revRange
  rw [List.mem_reverse, List.mem_range'_1]
  omega

theorem revRange_nodup (sbi len : ℕ) : (revRange sbi len).Nodup := by
  unfold revRange
  rw [List.nodup_reverse]
  exact List.nodup_range' _ _

theorem seedQueue_boxes_nodup (scores : List ℚ) (s : ℚ) :
    ((seedQueue scores s).map Cand.box).Nodup := by
  unfold seedQueue
  rw [List.map_filterMap]
  refine (List.nodup_range _).filterMap ?_
  intro a a' b hb hb'
  by_cases h1 : s < scores.getD a 0
  · rw [if_pos h1] at hb
    by_cases h2 : s < scores.getD a' 0
    · rw [if_pos h2] at hb'
      simp only [Option.map_some', Option.mem_def, Option.some.injEq] at hb hb'
      omega
    · rw [if_neg h2] at hb'
      simp at hb'
  · rw [if_neg h1] at hb
    simp at hb

theorem nmsStep_nmsInv (simFn : ℕ → ℕ → ℚ) (w : ℚ → ℚ) (t s : ℚ)
    (N K : ℕ) :
    ∀ st st', nmsStep simFn w t s K st = some st' →
      nmsInv N K st → nmsInv N K st' := by
  intro st st' hstep hP
  obtain ⟨hnd, hbd, hlen, hq, hqn⟩ := hP
  unfold nmsStep at hstep
  by_cases hK : st.selected.length < K
  case neg => rw [if_neg hK] at hstep; exact absurd hstep (by simp)
  rw [if_pos hK] at hstep
  cases hpop : popMax st.queue with
  | none => rw [hpop] at hstep; exact absurd hstep (by simp)
  | some p =>
    obtain ⟨c, rest⟩ := p
    rw [hpop] at hstep
    dsimp only at hstep
    have hperm := popMax_perm st.queue c rest hpop
    have hcq : c ∈ st.queue := hperm.mem_iff.mpr (List.mem_cons_self c rest)
    obtain ⟨hcbox, hcsbi, hctr⟩ := hq c hcq
    have hrestq : ∀ d ∈ rest, d.box < N ∧ d.sbi ≤ st.selected.length ∧
        ∀ j, (d.box, j) ∈ st.trace → j < d.sbi := fun d hd =>
      hq d (hperm.mem_iff.mpr (List.mem_cons_of_mem c hd))
    have hboxn : (List.map Cand.box (c :: rest)).Nodup :=
      ((hperm.map Cand.box).nodup_iff).mp hqn
    rw [List.map_cons, List.nodup_cons] at hboxn
    obtain ⟨hcnot, hrestn⟩ := hboxn
    obtain ⟨m, hm⟩ := innerLoop_trace simFn w t s st.selected c.box
      (revRange c.sbi st.selected.length) c.score
    set r := innerLoop simFn w t s st.selected c.box
      (revRange c.sbi st.selected.length) c.score with hr
    have hnew_mem : ∀ p ∈ r.2.2, p.1 = c.box ∧ c.sbi ≤ p.2 ∧
        p.2 < st.selected.length := by
      intro p hp
      rw [hm] at hp
      obtain ⟨j, hj, rfl⟩ := List.mem_map.mp hp
      have hj' : j ∈ revRange c.sbi st.selected.length :=
        (List.take_sublist m _).subset hj
      obtain ⟨h1, h2⟩ := (revRange_mem _ _ _).mp hj'
      exact ⟨rfl, h1, h2⟩
    have hnew_nd : r.2.2.Nodup := by
      rw [hm]
      refine List.Nodup.map ?_
        ((List.take_sublist m _).nodup (revRange_nodup _ _))
      intro x y hxy
      simpa using congrArg Prod.snd hxy
    have htr_nd : (st.trace ++ r.2.2).Nodup := by
      rw [List.nodup_append]
      refine ⟨hnd, hnew_nd, ?_⟩
      intro p hp hp'
      obtain ⟨hpb, hpl, _⟩ := hnew_mem p hp'
      have hp2 : (c.box, p.2) ∈ st.trace := by rw [← hpb]; exact hp
      have := hctr p.2 hp2
      omega
    have htr_bd : ∀ p ∈ st.trace ++ r.2.2, p.1 < N ∧ p.2 < K := by
      intro p hp
      rcases List.mem_append.mp hp with h | h
      · exact hbd p h
      · obtain ⟨hpb, _, hpl⟩ := hnew_mem p h
        exact ⟨by rw [hpb]; exact hcbox, lt_trans hpl hK⟩
    have hrest_inv : ∀ d ∈ rest, d.box < N ∧ d.sbi ≤ st.selected.length ∧
        ∀ j, (d.box, j) ∈ st.trace ++ r.2.2 → j < d.sbi := by
      intro d hd
      obtain ⟨hd1, hd2, hd3⟩ := hrestq d hd
      refine ⟨hd1, hd2, ?_⟩
      intro j hj
      rcases List.mem_append.mp hj with h | h
      · exact hd3 j h
      · exfalso
        obtain ⟨hpb, _, _⟩ := hnew_mem _ h
        exact hcnot (by rw [← hpb]; exact List.mem_map_of_mem Cand.box hd)
    have hc'_tr : ∀ j, (c.box, j) ∈ st.trace ++ r.2.2 →
        j < st.selected.length := by
      intro j hj
      rcases List.mem_append.mp hj with h | h
      · exact lt_of_lt_of_le (hctr j h) hcsbi
      · exact (hnew_mem _ h).2.2
    by_cases hhard : r.2.1 = true
    · rw [if_pos hhard, Option.some.injEq] at hstep
      subst hstep
      exact ⟨htr_nd, htr_bd, hlen, hrest_inv, hrestn⟩
    · rw [if_neg hhard] at hstep
      by_cases hsel : r.1 = c.score
      · rw [if_pos hsel] at hstep
        by_cases hpush : s < r.1
        · rw [if_pos hpush, Option.some.injEq] at hstep
          subst hstep
          refine ⟨htr_nd, htr_bd, ?_, ?_, ?_⟩
          · simp only [List.length_append, List.length_cons, List.length_nil]
            omega
          · intro d hd
            rcases List.mem_cons.mp hd with rfl | hd'
            · refine ⟨hcbox, ?_, ?_⟩
              · simp only [List.length_append, List.length_cons,
                  List.length_nil]
                omega
              · intro j hj
                exact hc'_tr j hj
            · obtain ⟨hd1, hd2, hd3⟩ := hrest_inv d hd'
              refine ⟨hd1, ?_, hd3⟩
              simp only [List.length_append, List.length_cons, List.length_nil]
              omega
          · rw [List.map_cons, List.nodup_cons]
            exact ⟨hcnot, hrestn⟩
        · rw [if_neg hpush, Option.some.injEq] at hstep
          subst hstep
          refine ⟨htr_nd, htr_bd, ?_, ?_, hrestn⟩
          · simp only [List.length_append, List.length_cons, List.length_nil]
            omega
          · intro d hd
            obtain ⟨hd1, hd2, hd3⟩ := hrest_inv d hd
            refine ⟨hd1, ?_, hd3⟩
            simp only [List.length_append, List.length_cons, List.length_nil]
            omega
      · rw [if_neg hsel] at hstep
        by_cases hpush : s < r.1
        · rw [if_pos hpush, Option.some.injEq] at hstep
          subst hstep
          refine ⟨htr_nd, htr_bd, hlen, ?_, ?_⟩
          · intro d hd
            rcases List.mem_cons.mp hd with rfl | hd'
            · exact ⟨hcbox, le_refl _, hc'_tr⟩
            · exact hrest_inv d hd'
          · rw [List.map_cons, List.nodup_cons]
            exact ⟨hcnot, hrestn⟩
        · rw [if_neg hpush, Option.some.injEq] at hstep
          subst hstep
          exact ⟨htr_nd, htr_bd, hlen, hrest_inv, hrestn⟩

/-- C5: over any run of the single-class suppression engine (any
similarity source, thresholds, sigma, fuel), the ghost trace of
similarity-function invocations, which records the (candidate box,
previously-selected slot) pair of every call of lines 211, contains no
pair twice - re-insertions carry the updated suppress_begin_index
forward, so no pair is ever re-compared - and its length is at most
N * K for N input scores and max_output_size K. -/
theorem nms_similarity_calls_bound (expFn : ℚ → ℚ) (simFn : ℕ → ℕ → ℚ)
    (scores : List ℚ) (K : ℕ) (t s sigma : ℚ) (fuel : ℕ) :
    (doNonMaxSuppression expFn simFn scores K t s sigma fuel).trace.Nodup ∧
    (doNonMaxSuppression expFn simFn scores K t s sigma fuel).trace.length ≤
      scores.length * K := by
  have hinv : nmsInv scores.length K
      (doNonMaxSuppression expFn simFn scores K t s sigma fuel) := by
    unfold doNonMaxSuppression
    refine nmsLoop_inv _ _ _ _ _ (nmsInv scores.length K)
      (nmsStep_nmsInv _ _ _ _ scores.length K) fuel _ ?_
    refine ⟨List.nodup_nil, by simp, by simp, ?_,
      seedQueue_boxes_nodup scores s⟩
    intro c hc
    obtain ⟨hbox, hsbi, _⟩ := seedQueue_elem scores s c hc
    exact ⟨hbox, by simp [hsbi], by simp⟩
  obtain ⟨hnd2, hbd2, _, _, _⟩ := hinv
  refine ⟨hnd2, ?_⟩
  have hsub : (doNonMaxSuppression expFn simFn scores K t s sigma
      fuel).trace.toFinset ⊆
      Finset.range scores.length ×ˢ Finset.range K := by
    intro p hp
    rw [List.mem_toFinset] at hp
    obtain ⟨h1, h2⟩ := hbd2 p hp
    rw [Finset.mem_product]
    exact ⟨Finset.mem_range.mpr h1, Finset.mem_range.mpr h2⟩
  calc (doNonMaxSuppression expFn simFn scores K t s sigma
        fuel).trace.length
      = (doNonMaxSuppression expFn simFn scores K t s sigma
        fuel).trace.toFinset.card := (List.toFinset_card_of_nodup hnd2).symm
    _ ≤ (Finset.range scores.length ×ˢ Finset.range K).card :=
        Finset.card_le_card hsub
    _ = scores.length * K := by
        rw [Finset.card_product, Finset.card_range, Finset.card_range]

/-- C7: every batch element of the batched multi-class suppression
engine reports a valid-detection count at most the batch's output
width, and, when clip_boxes is set, every entry of its emitted box
buffer (zero padding included) lies in [0, 1]. -/
theorem batched_valid_le_width_and_clip (inpBoxes : List (List (List Box3)))
    (inpScores : List (List (List ℚ)))
    (numBoxes q numClasses maxSizePerClass totalSizePerBatch : ℕ)
    (s t : ℚ) (padPerClass clip : Bool) :
    ∀ out ∈ batchedNonMaxSuppression inpBoxes inpScores numBoxes q numClasses
        maxSizePerClass totalSizePerBatch s t padPerClass clip,
      out.valid ≤ out.width ∧
      (clip = true → ∀ v ∈ out.boxes, 0 ≤ v ∧ v ≤ 1) := by
  intro out hout
  unfold batchedNonMaxSuppression at hout
  rw [List.mem_map] at hout
  obtain ⟨batch, _, rfl⟩ := hout
  unfold batchedNMSBatch
  dsimp only
  constructor
  · by_cases hp : padPerClass = true
    · rw [if_pos hp, if_pos hp]
      exact min_le_left _ _
    · rw [if_neg hp, if_neg hp]
      exact min_le_right _ _
  · intro hclip v hv
    subst hclip
    rcases resizeQ_mem _ _ v hv with h | rfl
    · exact emitBoxes_clip_bounds _ v h
    · exact ⟨le_refl 0, zero_le_one⟩

/-- Witness for C7 at a one-batch, one-box, one-class input whose box
coordinates 2 and -1 fall outside [0, 1], with clipping enabled: the
batch's count is within its width and its first emitted coordinate (the
clipped value of 2) lies in [0, 1]. -/
theorem batched_valid_le_width_and_clip_witness :
    (batchedNMSBatch [[⟨2, 0, 0, -1, 1, 1⟩]] [[(9 : ℚ)/10]] 1 1 1 2 3 (-1)
        (1/2) false true).valid ≤
      (batchedNMSBatch [[⟨2, 0, 0, -1, 1, 1⟩]] [[(9 : ℚ)/10]] 1 1 1 2 3 (-1)
        (1/2) false true).width ∧
    (0 ≤ (batchedNMSBatch [[⟨2, 0, 0, -1, 1, 1⟩]] [[(9 : ℚ)/10]] 1 1 1 2 3
        (-1) (1/2) false true).boxes.getD 0 0 ∧
      (batchedNMSBatch [[⟨2, 0, 0, -1, 1, 1⟩]] [[(9 : ℚ)/10]] 1 1 1 2 3
        (-1) (1/2) false true).boxes.getD 0 0 ≤ 1) :=
  have h := batched_valid_le_width_and_clip [[[⟨2, 0, 0, -1, 1, 1⟩]]]
    [[[(9 : ℚ)/10]]] 1 1 1 2 3 (-1) (1/2) false true
    (batchedNMSBatch [[⟨2, 0, 0, -1, 1, 1⟩]] [[(9 : ℚ)/10]] 1 1 1 2 3 (-1)
      (1/2) false true) (by decide)
  ⟨h.1, (h.2 rfl) _ (by decide)⟩

/-- Witness for C5 at a concrete two-box run of the engine. -/
theorem nms_similarity_calls_bound_witness :
    (doNonMaxSuppression (fun _ => 1) (fun _ _ => 0) [1/2, 1/3] 2 (1/2)
      lowestFloat 0 10).trace.Nodup ∧
    (doNonMaxSuppression (fun _ => 1) (fun _ _ => 0) [1/2, 1/3] 2 (1/2)
      lowestFloat 0 10).trace.length ≤ [(1 : ℚ)/2, 1/3].length * 2 :=
  nms_similarity_calls_bound (fun _ => 1) (fun _ _ => 0) [1/2, 1/3] 2 (1/2)
    lowestFloat 0 10
